import Mathlib

/-!
Verification of the Hanchu ESS statistics-backfill engine
(`custom_components/hanchu/__init__.py`) against its specification.

The numeric model uses exact rationals (`ℚ`) for the engine's arithmetic;
a separate binary64 round-to-nearest model (`Fl` namespace) is used where a
claim is specifically about IEEE floating-point rounding behaviour.
Timestamps are modelled as millisecond epochs (`ℕ`); the timezone is an
offset in seconds (`ℤ`).
-/

namespace Hanchu

/-- The six energy flow keys of `_FLOW_TO_SENSOR` (sumData keys). -/
inductive FlowKey
  | pv
  | gridImport
  | gridExport
  | batCharge
  | batDisCharge
  | load
  deriving DecidableEq

/-- All six flow keys, in the dict order of `_FLOW_TO_SENSOR`. -/
def allFlows : List FlowKey :=
  [.pv, .gridImport, .gridExport, .batCharge, .batDisCharge, .load]

/-- The four `powerMinuteChart` data fields of `_MINUTE_FIELD_TO_SENSOR`. -/
inductive MinuteField
  | pvTtPwr
  | batP
  | meterPPwr
  | loadEpsPwr
  deriving DecidableEq

/-- One `powerMinuteChart` point: a millisecond timestamp (`dataTimeTs`,
absent or present) and an optional reading per power field. -/
structure MinutePoint where
  dataTimeTs : Option ℕ
  pvTtPwr : Option ℚ := none
  batP : Option ℚ := none
  meterPPwr : Option ℚ := none
  loadEpsPwr : Option ℚ := none
  deriving DecidableEq

/-- `point.get(field)` for the four minute-chart fields. -/
def MinutePoint.fieldVal (p : MinutePoint) : MinuteField → Option ℚ
  | .pvTtPwr => p.pvTtPwr
  | .batP => p.batP
  | .meterPPwr => p.meterPPwr
  | .loadEpsPwr => p.loadEpsPwr

/-- `if not ts_ms: continue` — a point is used only when `dataTimeTs` is
present and non-zero (Python truthiness). -/
def MinutePoint.tsOk (p : MinutePoint) : Bool :=
  match p.dataTimeTs with
  | none => false
  | some t => t ≠ 0

/-- The timestamp of a usable point (0 when unusable; only applied after
`tsOk`). -/
def MinutePoint.ts (p : MinutePoint) : ℕ := p.dataTimeTs.getD 0

/-- `dt.datetime.fromtimestamp(ts_ms / 1000, tz=tz).hour`: the local
hour-of-day of a millisecond timestamp, for a fixed-offset timezone given
in seconds. -/
def localHour (tzSec : ℤ) (tsMs : ℕ) : ℤ :=
  (((tsMs : ℤ) / 1000 + tzSec) / 3600) % 24

/-- The bucket of readings of one field that fall in local hour `h`
(in input order), as built by the bucketing loop of
`_compute_hourly_fractions`. -/
def hourBucket (tzSec : ℤ) (md : List MinutePoint) (h : ℕ) (f : MinuteField) :
    List ℚ :=
  ((md.filter (·.tsOk)).filter (fun p => localHour tzSec p.ts = (h : ℤ))).filterMap
    (·.fieldVal f)

/-- Mean power per field per hour: `sum/len` over the hour's bucket, `0.0`
for an empty bucket; a 24-element list indexed by hour. -/
def hourMeans (tzSec : ℤ) (md : List MinutePoint) (f : MinuteField) : List ℚ :=
  (List.range 24).map (fun h =>
    let b := hourBucket tzSec md h f
    if b.isEmpty then 0 else b.sum / b.length)

/-- The uniform fallback distribution `[1.0 / 24.0] * 24`. -/
def uniform24 : List ℚ := List.replicate 24 (1 / 24)

/-- `_norm`: divide by the total when it is positive, else uniform. -/
def normFracs (values : List ℚ) : List ℚ :=
  let total := values.sum
  if 0 < total then values.map (· / total) else uniform24

/-- `_compute_hourly_fractions`: the six per-flow 24-element fraction
vectors derived from the four per-field hourly mean series. -/
def computeHourlyFractions (tzSec : ℤ) (md : List MinutePoint) :
    FlowKey → List ℚ
  | .pv => normFracs (hourMeans tzSec md .pvTtPwr)
  | .load => normFracs (hourMeans tzSec md .loadEpsPwr)
  | .batCharge => normFracs ((hourMeans tzSec md .batP).map (fun v => max v 0))
  | .batDisCharge => normFracs ((hourMeans tzSec md .batP).map (fun v => max (-v) 0))
  | .gridImport => normFracs ((hourMeans tzSec md .meterPPwr).map (fun v => max v 0))
  | .gridExport => normFracs ((hourMeans tzSec md .meterPPwr).map (fun v => max (-v) 0))

/-! ## Backfill engine (energy path) -/

/-- One emitted energy statistic: hour-aligned start (modelled as an
absolute hour index: `24 * day_index + hour`), hourly `state` delta, and
cumulative `sum`. -/
structure StatRecord where
  start : ℕ
  state : ℚ
  sum : ℚ
  deriving DecidableEq

/-- `fracs[hour] if fracs else (1.0 / 24.0)`: `fracs` is absent when the
day had no minute data; an empty list is also falsy in Python. -/
def fracAt (fracs : Option (List ℚ)) (hour : ℕ) : ℚ :=
  match fracs with
  | none => 1 / 24
  | some [] => 1 / 24
  | some (v :: vs) => (v :: vs).getD hour 0

/-- One step of the inner `for hour in range(24)` loop of the energy path:
append one record with `state = daily_value * frac` and
`sum = sum_before + cum`, threading the accumulator `cum`. -/
def hourStep (dayIdx : ℕ) (sumBefore daily : ℚ) (fracs : Option (List ℚ))
    (acc : List StatRecord × ℚ) (hour : ℕ) : List StatRecord × ℚ :=
  let hourlyValue := daily * fracAt fracs hour
  let cum := acc.2 + hourlyValue
  (acc.1 ++ [⟨24 * dayIdx + hour, hourlyValue, sumBefore + cum⟩], cum)

/-- The 24 energy records of one day for one flow: the
`for hour in range(24)` loop starting from `cum = 0.0`. -/
def emitDay (dayIdx : ℕ) (sumBefore daily : ℚ) (fracs : Option (List ℚ)) :
    List StatRecord :=
  ((List.range 24).foldl (hourStep dayIdx sumBefore daily fracs) ([], 0)).1

/-- The result of one day's `async_fetch_energy_flow` plus (when
`include_power`) the day's minute chart.  `totals f` models
`float(day_data.get(flow_key) or 0.0)`; a failed minute fetch is the empty
list. -/
structure DayData where
  totals : FlowKey → ℚ
  minute : List MinutePoint

/-- `_compute_hourly_fractions(minute_data, tz) if minute_data else {}`,
with `minute_data` empty whenever `include_power` is false. -/
def dayFracs (includePower : Bool) (tzSec : ℤ) (d : DayData) :
    Option (FlowKey → List ℚ) :=
  let md := if includePower then d.minute else []
  if md.isEmpty then none else some (computeHourlyFractions tzSec md)

/-- Mutable engine state across the date loop: per-flow running sums,
per-flow accumulated records and the imported-day counter. -/
structure EngineState where
  runningSums : FlowKey → ℚ
  stats : FlowKey → List StatRecord
  importedDays : ℕ

/-- The engine state at the top of the date loop: all sums as seeded, no
records, zero days imported. -/
def initState (seed : FlowKey → ℚ) : EngineState :=
  ⟨seed, fun _ => [], 0⟩

/-- One iteration of the date loop (energy path): a failed daily fetch
(`none`) skips the day; otherwise every flow appends its 24 hourly records,
the running sum grows by the daily value and the day counter increments. -/
def processDay (includePower : Bool) (tzSec : ℤ) (dayIdx : ℕ)
    (fetch : Option DayData) (st : EngineState) : EngineState :=
  match fetch with
  | none => st
  | some d =>
    let hf := dayFracs includePower tzSec d
    { runningSums := fun f => st.runningSums f + d.totals f
      stats := fun f =>
        st.stats f ++
          emitDay dayIdx (st.runningSums f) (d.totals f) (hf.map (fun m => m f))
      importedDays := st.importedDays + 1 }

/-- The date loop over the fetched range, day indices ascending. -/
def runDays (includePower : Bool) (tzSec : ℤ) :
    List (Option DayData) → ℕ → EngineState → EngineState
  | [], _, st => st
  | d :: rest, idx, st =>
    runDays includePower tzSec rest (idx + 1)
      (processDay includePower tzSec idx d st)

/-- The `state` value emitted at one hour: `daily_value * fraction[hour]`. -/
def hourState (daily : ℚ) (fracs : Option (List ℚ)) (h : ℕ) : ℚ :=
  daily * fracAt fracs h

/-- The value of the accumulator `cum` just after processing hour `h`:
the sum of the hourly values through hour `h`. -/
def cumThrough (daily : ℚ) (fracs : Option (List ℚ)) (h : ℕ) : ℚ :=
  ((List.range (h + 1)).map (hourState daily fracs)).sum

/-- The fraction list one flow uses on one day (`hourly_fractions.get`). -/
def flowFracs (includePower : Bool) (tzSec : ℤ) (d : DayData) (f : FlowKey) :
    Option (List ℚ) :=
  (dayFracs includePower tzSec d).map (fun m => m f)

/-- The energy records the date loop accumulates for one flow, starting at
day index `idx` with running sum `s`: failed days contribute nothing, each
successful day contributes its 24 hourly records and advances the running
sum by its daily value. -/
def flowRecords (includePower : Bool) (tzSec : ℤ) (f : FlowKey) :
    List (Option DayData) → ℕ → ℚ → List StatRecord
  | [], _, _ => []
  | none :: rest, idx, s => flowRecords includePower tzSec f rest (idx + 1) s
  | some d :: rest, idx, s =>
      emitDay idx s (d.totals f) (flowFracs includePower tzSec d f) ++
        flowRecords includePower tzSec f rest (idx + 1) (s + d.totals f)

/-- The number of successfully fetched days in a range. -/
def countImported (days : List (Option DayData)) : ℕ :=
  (days.filterMap id).length

/-! ## Pre-seeding of the running sums -/

/-- The trailing lookback window queried for seeding: 7 days before
`start_date` up to `start_date` (in days). -/
def seedWindow (startDay : ℤ) : ℤ × ℤ := (startDay - 7, startDay)

/-- Seeding the running sums from the pre-range query.  `q = none` models
the `except` branch (the query raised): every sum stays at `0.0`.  On
success, a flow with a resolved entity whose stats list yields a last `sum`
value takes that value; all other flows stay at `0.0`. -/
def seedSums (resolved : FlowKey → Bool) (q : Option (FlowKey → Option ℚ)) :
    FlowKey → ℚ :=
  fun f =>
    match q with
    | none => 0
    | some lastSum => if resolved f then (lastSum f).getD 0 else 0

/-! ## Power-statistics path -/

/-- One emitted power statistic: hour-aligned start (modelled as an
absolute local hour index, full timestamp truncated to the hour) and the
arithmetic mean of the hour's samples. -/
structure PowerRecord where
  start : ℤ
  mean : ℚ
  deriving DecidableEq

/-- `ts_dt.replace(minute=0, second=0, microsecond=0)`: the hour-aligned
bucket key of a millisecond timestamp, as an absolute local hour index
(distinct calendar days never collide). -/
def hourStartIdx (tzSec : ℤ) (tsMs : ℕ) : ℤ :=
  ((tsMs : ℤ) / 1000 + tzSec) / 3600

/-- Bucket keys in dict insertion order (first appearance of each
hour-aligned timestamp while scanning the minute data). -/
def bucketKeys (tzSec : ℤ) (md : List MinutePoint) : List ℤ :=
  md.foldl
    (fun acc p =>
      if p.tsOk then
        let k := hourStartIdx tzSec p.ts
        if k ∈ acc then acc else acc ++ [k]
      else acc)
    []

/-- The readings of one field collected into one hour bucket. -/
def bucketReadings (tzSec : ℤ) (md : List MinutePoint) (k : ℤ)
    (f : MinuteField) : List ℚ :=
  ((md.filter (·.tsOk)).filter (fun p => hourStartIdx tzSec p.ts = k)).filterMap
    (·.fieldVal f)

/-- The power records built for one field: one record per hour bucket with
at least one reading, `mean = sum/len`; buckets with no readings for the
field are skipped, not emitted as zero. -/
def powerStatsFor (tzSec : ℤ) (md : List MinutePoint) (f : MinuteField) :
    List PowerRecord :=
  (bucketKeys tzSec md).filterMap (fun k =>
    let r := bucketReadings tzSec md k f
    if r.isEmpty then none else some ⟨k, r.sum / r.length⟩)

/-- The four power sensor description keys of `_MINUTE_FIELD_TO_SENSOR`. -/
inductive PowerSensor
  | solarPower
  | batteryPower
  | gridPower
  | loadPower
  deriving DecidableEq

/-- `_MINUTE_FIELD_TO_SENSOR`. -/
def fieldSensor : MinuteField → PowerSensor
  | .pvTtPwr => .solarPower
  | .batP => .batteryPower
  | .meterPPwr => .gridPower
  | .loadEpsPwr => .loadPower

/-- The unit attached to a sunk power series. -/
inductive PowerUnit
  | watt
  | kilowatt
  deriving DecidableEq

/-- A series is routed to the kilowatt-scaled battery entity exactly when
it is the battery-power series and the battery device entity was resolved
(`entity_id == bat_power_eid_kw`). -/
def isKwRoute (batOverride : Bool) (s : PowerSensor) : Bool :=
  batOverride && s == .batteryPower

/-- Stable insertion into a start-sorted list (later records with the same
start stay behind earlier ones, as in Python's stable sort). -/
def insertByStart (r : PowerRecord) : List PowerRecord → List PowerRecord
  | [] => [r]
  | s :: ss =>
    if s.start ≤ r.start then s :: insertByStart r ss else r :: s :: ss

/-- `sensor_pstats.sort(key=...)`: stable sort by `start` ascending. -/
def sortByStart : List PowerRecord → List PowerRecord
  | [] => []
  | r :: rs => insertByStart r (sortByStart rs)

/-- Sinking one power series: sort by start; when routed to the
kilowatt-scaled battery entity, divide every mean by 1000 and use kW,
otherwise leave the means unscaled in W. -/
def sinkPowerRecords (kwRoute : Bool) (recs : List PowerRecord) :
    List PowerRecord × PowerUnit :=
  let sorted := sortByStart recs
  if kwRoute then
    (sorted.map (fun r => ⟨r.start, r.mean / 1000⟩), .kilowatt)
  else (sorted, .watt)

/-! ## Full invocation result (energy writes and completion notice) -/

/-- What one service invocation produces towards the outside: the energy
statistics handed to the sink (entity id paired with its records, in
`_FLOW_TO_SENSOR` order restricted to resolved flows), the imported-day
count, and the completion notice carrying that count (absent when the
invocation reports nothing imported). -/
structure RunResult where
  energyWrites : List (ℕ × List StatRecord)
  importedDays : ℕ
  notice : Option ℕ

/-- The energy sink loop: only flows with a resolved entity id are
considered, and empty record lists are skipped. -/
def energyWrites (resolved : FlowKey → Option ℕ) (st : EngineState) :
    List (ℕ × List StatRecord) :=
  allFlows.filterMap (fun f =>
    match resolved f with
    | none => none
    | some e => if (st.stats f).isEmpty then none else some (e, st.stats f))

/-- One whole `import_statistics` invocation (energy path): seed the
running sums once from the pre-range query, run the date loop, then either
return early with no writes and no notice (zero days imported) or write
every non-empty resolved series and produce the completion notice. -/
def runInvocation (resolved : FlowKey → Option ℕ)
    (q : Option (FlowKey → Option ℚ)) (includePower : Bool) (tzSec : ℤ)
    (days : List (Option DayData)) : RunResult :=
  let st := runDays includePower tzSec days 0
    (initState (seedSums (fun f => (resolved f).isSome) q))
  if st.importedDays = 0 then ⟨[], st.importedDays, none⟩
  else ⟨energyWrites resolved st, st.importedDays, some st.importedDays⟩

/-! ## Binary64 model

Exact model of IEEE-754 binary64 round-to-nearest-even (for the magnitude
range of this program: no overflow or subnormals), used for the claims that
are specifically about the floating-point arithmetic the Python code
performs. -/

namespace Fl

/-- A binary64 value, represented exactly as `m * 2^e`.  Rounded results
are normalised (`|m| ∈ [2^52, 2^53)`, or `m = 0`), so two rounded results
are equal as reals iff their representations are equal. -/
structure F where
  m : ℤ
  e : ℤ
  deriving DecidableEq

/-- Whether `2^k ≤ a/b`, by integer comparison (`a, b ≥ 1`). -/
def pow2le (k : ℤ) (a b : ℕ) : Bool :=
  if 0 ≤ k then b * 2 ^ k.toNat ≤ a else b ≤ a * 2 ^ (-k).toNat

/-- Fuel-driven `⌊log₂ n⌋` (0 for `n < 2`), structurally recursive so the
kernel can evaluate it. -/
def log2fuel : ℕ → ℕ → ℕ
  | 0, _ => 0
  | fuel + 1, n => if 2 ≤ n then log2fuel fuel (n / 2) + 1 else 0

/-- `⌊log₂ n⌋` for the magnitudes this model meets (`n < 2^128`). -/
def nlog2 (n : ℕ) : ℕ := log2fuel 128 n

/-- `⌊log₂ (a/b)⌋` for `a, b ≥ 1`: the true value is within one of
`log₂ a - log₂ b`, so probe the candidates from above. -/
def floorLog2 (a b : ℕ) : ℤ :=
  let k0 : ℤ := (nlog2 a : ℤ) - (nlog2 b : ℤ)
  if pow2le (k0 + 1) a b then k0 + 1
  else if pow2le k0 a b then k0
  else k0 - 1

/-- Round the positive value `(num/den) * 2^e` (`num, den ≥ 1`) to the
nearest binary64 value, ties to even: scale so the significand lies in
`[2^52, 2^53)`, round the integer quotient, and renormalise on carry. -/
def roundPosFrac (num den : ℕ) (e : ℤ) : F :=
  let k := floorLog2 num den
  let sh : ℤ := 52 - k
  let N := num * 2 ^ (max sh 0).toNat
  let D := den * 2 ^ (max (-sh) 0).toNat
  let q := N / D
  let r := N % D
  let n := if 2 * r < D then q else if D < 2 * r then q + 1
    else if q % 2 = 0 then q else q + 1
  if n = 2 ^ 53 then ⟨2 ^ 52, e + k + 1 - 52⟩ else ⟨(n : ℤ), e + k - 52⟩

/-- Round the dyadic value `m * 2^e` to the nearest binary64 value. -/
def roundF (m : ℤ) (e : ℤ) : F :=
  if m = 0 then ⟨0, 0⟩
  else if 0 < m then roundPosFrac m.toNat 1 e
  else
    let p := roundPosFrac (-m).toNat 1 e
    ⟨-p.m, p.e⟩

/-- Correctly-rounded binary64 addition. -/
def addF (x y : F) : F :=
  let e := min x.e y.e
  roundF (x.m * 2 ^ (x.e - e).toNat + y.m * 2 ^ (y.e - e).toNat) e

/-- Correctly-rounded binary64 multiplication. -/
def mulF (x y : F) : F := roundF (x.m * y.m) (x.e + y.e)

/-- Correctly-rounded binary64 division (divisor non-zero). -/
def divF (x y : F) : F :=
  if x.m = 0 then ⟨0, 0⟩
  else
    let p := roundPosFrac x.m.natAbs y.m.natAbs (x.e - y.e)
    if 0 < x.m * y.m then p else ⟨-p.m, p.e⟩

/-- The binary64 value of a small natural-number literal. -/
def fromNat (n : ℕ) : F := roundF n 0

/-- The exact rational value a binary64 model value denotes. -/
def toQ (x : F) : ℚ :=
  if 0 ≤ x.e then (x.m : ℚ) * ((2 ^ x.e.toNat : ℕ) : ℚ)
  else (x.m : ℚ) / ((2 ^ (-x.e).toNat : ℕ) : ℚ)

/-- The binary64 value of the literal `1.0 / 24.0` used as the uniform
hourly fraction. -/
def uniformFrac : F := divF (fromNat 1) (fromNat 24)

/-- The `cum` accumulator of the hour loop under binary64 arithmetic with
uniform fractions: each hour adds `fl(daily_value * fl(1/24))`. -/
def flCum (d : F) : ℕ → F → F
  | 0, cum => cum
  | n + 1, cum => flCum d n (addF cum (mulF d uniformFrac))

/-- The value of `cum` after the 24 hour iterations: in binary64 this is
what the code adds to `sum_before` in the hour-23 record, and the sum of
the 24 emitted `state` values. -/
def flDaySum (d : F) : F := flCum d 24 ⟨0, 0⟩

end Fl

/-! ## Concrete inputs used to instantiate the claims -/

/-- Minute data with battery-power means `[+100, -50, 0, +30]` over the
first four local hours (timezone offset 0): one sample per hour. -/
def c6md : List MinutePoint :=
  [{ dataTimeTs := some 1000, batP := some 100 },
   { dataTimeTs := some 3601000, batP := some (-50) },
   { dataTimeTs := some 7201000, batP := some 0 },
   { dataTimeTs := some 10801000, batP := some 30 }]

/-- Minute data whose load-field hourly means are `[+100, -60, 0, …]`:
hour 1's mean is negative while the day total is positive, so the load
fraction at hour 1 is negative. -/
def c10md : List MinutePoint :=
  [{ dataTimeTs := some 1000, loadEpsPwr := some 100 },
   { dataTimeTs := some 3601000, loadEpsPwr := some (-60) }]

/-- The one-day backfill input for the negative-fraction scenario: daily
load total 10 kWh, shaped by `c10md`. -/
def c10day : DayData :=
  { totals := fun f => match f with | .load => 10 | _ => 0
    minute := c10md }

/-- Minute data with two battery-power samples of 2000 W and 3000 W in the
same hour: the hourly mean is 2500 W. -/
def c8md : List MinutePoint :=
  [{ dataTimeTs := some 1000, batP := some 2000 },
   { dataTimeTs := some 61000, batP := some 3000 }]

/-- A day with a daily solar total of 24.0 kWh and no minute samples. -/
def c5day : DayData :=
  { totals := fun f => match f with | .pv => 24 | _ => 0
    minute := [] }

/-- A plain day with every daily total 1 and no minute samples. -/
def oneDay : DayData := { totals := fun _ => 1, minute := [] }

/-- A distinct numeric entity id per flow, for invocations where every
energy entity resolves. -/
def flowIdx : FlowKey → ℕ
  | .pv => 0
  | .gridImport => 1
  | .gridExport => 2
  | .batCharge => 3
  | .batDisCharge => 4
  | .load => 5

/-- Entity resolution succeeding for every flow. -/
def allResolved : FlowKey → Option ℕ := fun f => some (flowIdx f)

/-! ## General lemmas about the engine -/

theorem emitFold (dayIdx : ℕ) (s d : ℚ) (fr : Option (List ℚ)) (n : ℕ) :
    (List.range n).foldl (hourStep dayIdx s d fr) ([], 0) =
      ((List.range n).map
        (fun h =>
          ⟨24 * dayIdx + h, hourState d fr h, s + cumThrough d fr h⟩),
       ((List.range n).map (hourState d fr)).sum) := by
  induction n with
  | zero => simp
  | succ n ih =>
    rw [List.range_succ, List.foldl_append, ih, List.foldl_cons, List.foldl_nil,
      List.map_append, List.map_append, List.sum_append]
    refine Prod.ext ?_ ?_
    · show _ ++ _ = _ ++ _
      congr 1
      simp only [hourStep, List.map_cons, List.map_nil]
      have hcum : (List.map (hourState d fr) (List.range n)).sum + d * fracAt fr n
          = cumThrough d fr n := by
        rw [cumThrough, List.range_succ, List.map_append, List.sum_append]
        simp [hourState]
      rw [← hcum]
      simp [hourState, add_assoc]
    · simp [hourStep, hourState]

/-- Closed form of the 24 emitted records of one day for one flow. -/
theorem emitDay_eq (dayIdx : ℕ) (s d : ℚ) (fr : Option (List ℚ)) :
    emitDay dayIdx s d fr =
      (List.range 24).map
        (fun h => ⟨24 * dayIdx + h, hourState d fr h, s + cumThrough d fr h⟩) := by
  rw [emitDay, emitFold]

attribute [irreducible] emitDay

theorem emitDay_length (dayIdx : ℕ) (s d : ℚ) (fr : Option (List ℚ)) :
    (emitDay dayIdx s d fr).length = 24 := by
  rw [emitDay_eq]; simp

theorem runDays_stats (ip : Bool) (tz : ℤ) (f : FlowKey)
    (days : List (Option DayData)) (idx : ℕ) (st : EngineState) :
    (runDays ip tz days idx st).stats f =
      st.stats f ++ flowRecords ip tz f days idx (st.runningSums f) := by
  induction days generalizing idx st with
  | nil => simp [runDays, flowRecords]
  | cons day rest ih =>
    cases day with
    | none => rw [runDays, ih]; rfl
    | some d => rw [runDays, ih]; simp [processDay, flowRecords, flowFracs]

theorem runDays_importedDays (ip : Bool) (tz : ℤ)
    (days : List (Option DayData)) (idx : ℕ) (st : EngineState) :
    (runDays ip tz days idx st).importedDays =
      st.importedDays + countImported days := by
  induction days generalizing idx st with
  | nil => simp [runDays, countImported]
  | cons day rest ih =>
    cases day with
    | none => rw [runDays, ih]; simp [processDay, countImported]
    | some d => rw [runDays, ih]; simp [processDay, countImported]; ring

theorem flowRecords_length (ip : Bool) (tz : ℤ) (f : FlowKey)
    (days : List (Option DayData)) (idx : ℕ) (s : ℚ) :
    (flowRecords ip tz f days idx s).length = 24 * countImported days := by
  induction days generalizing idx s with
  | nil => simp [flowRecords, countImported]
  | cons day rest ih =>
    cases day with
    | none => rw [flowRecords, ih]; simp [countImported]
    | some d =>
      rw [flowRecords]
      simp only [List.length_append, emitDay_length, ih, countImported,
        List.filterMap_cons, id, List.length_cons]
      ring

theorem sum_map_mul (c : ℚ) (g : ℕ → ℚ) (l : List ℕ) :
    (l.map (fun x => c * g x)).sum = c * (l.map g).sum := by
  induction l with
  | nil => simp
  | cons a t ih => simp [ih]; ring

theorem sum_map_div (l : List ℚ) (t : ℚ) :
    (l.map (· / t)).sum = l.sum / t := by
  induction l with
  | nil => simp
  | cons a r ih => simp [ih]; ring

theorem sum_map_getD (l : List ℚ) :
    ((List.range l.length).map (fun h => l.getD h 0)).sum = l.sum := by
  induction l with
  | nil => simp
  | cons a t ih =>
    rw [List.length_cons, List.range_succ_eq_map, List.map_cons, List.map_map,
      List.sum_cons]
    have hcomp : ((fun h => (a :: t).getD h 0) ∘ Nat.succ) =
        fun h => t.getD h 0 := by
      funext h
      simp
    rw [hcomp, ih, List.getD_cons_zero, List.sum_cons]

theorem uniform24_sum : uniform24.sum = 1 := by
  rw [uniform24, List.sum_replicate]
  norm_num

/-- `_norm` always returns a distribution summing to exactly 1 (in exact
arithmetic): either the list divided by its positive total, or uniform. -/
theorem normFracs_sum (l : List ℚ) : (normFracs l).sum = 1 := by
  rw [normFracs]
  by_cases h : 0 < l.sum
  · rw [if_pos h, sum_map_div, div_self (ne_of_gt h)]
  · rw [if_neg h, uniform24_sum]

theorem normFracs_length (l : List ℚ) (hl : l.length = 24) :
    (normFracs l).length = 24 := by
  rw [normFracs]
  by_cases h : 0 < l.sum
  · rw [if_pos h, List.length_map, hl]
  · rw [if_neg h, uniform24, List.length_replicate]

theorem hourMeans_length (tz : ℤ) (md : List MinutePoint) (f : MinuteField) :
    (hourMeans tz md f).length = 24 := by
  rw [hourMeans, List.length_map, List.length_range]

/-- Every flow's fraction vector has exactly 24 entries. -/
theorem computeHourlyFractions_length (tz : ℤ) (md : List MinutePoint)
    (f : FlowKey) : (computeHourlyFractions tz md f).length = 24 := by
  have hm : ∀ g : ℚ → ℚ, ∀ mf : MinuteField,
      ((hourMeans tz md mf).map g).length = 24 := by
    intro g mf
    rw [List.length_map, hourMeans_length]
  cases f <;>
    first
      | exact normFracs_length _ (hourMeans_length tz md _)
      | exact normFracs_length _ (hm _ _)

/-- Every flow's fraction vector sums to exactly 1 (in exact arithmetic). -/
theorem computeHourlyFractions_sum (tz : ℤ) (md : List MinutePoint)
    (f : FlowKey) : (computeHourlyFractions tz md f).sum = 1 := by
  cases f <;> simp [computeHourlyFractions, normFracs_sum]

theorem fracAt_some_of_ne_nil (l : List ℚ) (hl : l ≠ []) (h : ℕ) :
    fracAt (some l) h = l.getD h 0 := by
  cases l with
  | nil => exact absurd rfl hl
  | cons a t => rfl

/-- The 24 fractions a flow uses on any day sum to exactly 1, whether they
come from the estimator or from the uniform fallback. -/
theorem fracAt_day_sum (ip : Bool) (tz : ℤ) (d : DayData) (f : FlowKey) :
    ((List.range 24).map (fracAt (flowFracs ip tz d f))).sum = 1 := by
  rw [flowFracs, dayFracs]
  by_cases hmd : (if ip then d.minute else []).isEmpty
  · rw [if_pos hmd]
    simp only [Option.map_none']
    show ((List.range 24).map (fun _ => (1 : ℚ) / 24)).sum = 1
    rw [List.map_const', List.sum_replicate]
    norm_num
  · rw [if_neg hmd]
    simp only [Option.map_some']
    set l := computeHourlyFractions tz (if ip then d.minute else []) f with hl
    have hlen : l.length = 24 := computeHourlyFractions_length _ _ _
    have hne : l ≠ [] := by
      intro hnil
      rw [hnil] at hlen
      exact absurd hlen (by norm_num)
    calc ((List.range 24).map (fracAt (some l))).sum
        = ((List.range l.length).map (fun h => l.getD h 0)).sum := by
          rw [hlen]
          exact congrArg _ (List.map_congr_left (fun h _ => fracAt_some_of_ne_nil l hne h))
      _ = l.sum := sum_map_getD l
      _ = 1 := by rw [hl]; exact computeHourlyFractions_sum _ _ _

/-- `cum` after hour 23 equals `daily_value` exactly: the fractions sum
to 1 in exact arithmetic. -/
theorem cumThrough_day (ip : Bool) (tz : ℤ) (d : DayData) (f : FlowKey)
    (dv : ℚ) : cumThrough dv (flowFracs ip tz d f) 23 = dv := by
  rw [cumThrough]
  show ((List.range 24).map (hourState dv (flowFracs ip tz d f))).sum = dv
  unfold hourState
  rw [sum_map_mul, fracAt_day_sum, mul_one]

theorem cumThrough_zero (d : ℚ) (fr : Option (List ℚ)) :
    cumThrough d fr 0 = hourState d fr 0 := by
  rw [cumThrough]
  simp [List.range_succ]

theorem cumThrough_succ (d : ℚ) (fr : Option (List ℚ)) (h : ℕ) :
    cumThrough d fr (h + 1) = cumThrough d fr h + hourState d fr (h + 1) := by
  rw [cumThrough, cumThrough, List.range_succ, List.map_append, List.sum_append]
  simp

theorem cumThrough_nonneg (d : ℚ) (fr : Option (List ℚ)) (h : ℕ)
    (hd : 0 ≤ d) (hf : ∀ h', 0 ≤ fracAt fr h') : 0 ≤ cumThrough d fr h := by
  refine List.sum_nonneg ?_
  intro x hx
  obtain ⟨h', _, rfl⟩ := List.mem_map.mp hx
  exact mul_nonneg hd (hf h')

theorem emitDay_chain (idx : ℕ) (s d : ℚ) (fr : Option (List ℚ))
    (hd : 0 ≤ d) (hf : ∀ h', 0 ≤ fracAt fr h') :
    List.Chain' (fun a b : StatRecord => a.sum ≤ b.sum) (emitDay idx s d fr) := by
  rw [emitDay_eq, List.chain'_map]
  rw [show (24 : ℕ) = Nat.succ 23 from rfl, List.chain'_range_succ]
  intro m _
  show s + cumThrough d fr m ≤ s + cumThrough d fr (m + 1)
  rw [cumThrough_succ]
  have := mul_nonneg hd (hf (m + 1))
  unfold hourState
  linarith

theorem emitDay_sums_ge (idx : ℕ) (s d : ℚ) (fr : Option (List ℚ))
    (hd : 0 ≤ d) (hf : ∀ h', 0 ≤ fracAt fr h') :
    ∀ r ∈ emitDay idx s d fr, s ≤ r.sum := by
  intro r hr
  rw [emitDay_eq] at hr
  obtain ⟨h, _, rfl⟩ := List.mem_map.mp hr
  have := cumThrough_nonneg d fr h hd hf
  show s ≤ s + cumThrough d fr h
  linarith

theorem emitDay_getLast? (idx : ℕ) (s d : ℚ) (fr : Option (List ℚ)) :
    (emitDay idx s d fr).getLast? =
      some ⟨24 * idx + 23, hourState d fr 23, s + cumThrough d fr 23⟩ := by
  rw [emitDay_eq, show (24 : ℕ) = 23 + 1 from rfl, List.range_succ,
    List.map_append]
  simp

theorem emitDay_head? (idx : ℕ) (s d : ℚ) (fr : Option (List ℚ)) :
    (emitDay idx s d fr).head? =
      some ⟨24 * idx, hourState d fr 0, s + hourState d fr 0⟩ := by
  rw [emitDay_eq, show (24 : ℕ) = 23 + 1 from rfl, List.range_succ_eq_map,
    List.map_cons]
  simp [cumThrough_zero]

/-- Monotonicity of the emitted sums for one flow across the whole date
loop, given non-negative daily values and non-negative fractions; together
with: every emitted sum is at least the starting running sum. -/
theorem flowRecords_chain (ip : Bool) (tz : ℤ) (f : FlowKey)
    (days : List (Option DayData)) (idx : ℕ) (s : ℚ)
    (hd : ∀ d ∈ days.filterMap id, 0 ≤ d.totals f)
    (hf : ∀ d ∈ days.filterMap id, ∀ h', 0 ≤ fracAt (flowFracs ip tz d f) h') :
    List.Chain' (fun a b : StatRecord => a.sum ≤ b.sum)
        (flowRecords ip tz f days idx s) ∧
      ∀ r ∈ flowRecords ip tz f days idx s, s ≤ r.sum := by
  induction days generalizing idx s with
  | nil => exact ⟨List.chain'_nil, by intro r hr; exact absurd hr (List.not_mem_nil r)⟩
  | cons day rest ih =>
    cases day with
    | none =>
      rw [flowRecords]
      exact ih (idx + 1) s (by simpa using hd) (by simpa using hf)
    | some d =>
      have hd0 : 0 ≤ d.totals f := hd d (by simp)
      have hf0 : ∀ h', 0 ≤ fracAt (flowFracs ip tz d f) h' := hf d (by simp)
      have hdr : ∀ x ∈ rest.filterMap id, 0 ≤ x.totals f := by
        intro x hx
        exact hd x (by simp [hx])
      have hfr : ∀ x ∈ rest.filterMap id, ∀ h', 0 ≤ fracAt (flowFracs ip tz x f) h' := by
        intro x hx
        exact hf x (by simp [hx])
      obtain ⟨ihc, ihge⟩ := ih (idx + 1) (s + d.totals f) hdr hfr
      rw [flowRecords]
      have hch := emitDay_chain idx s (d.totals f) (flowFracs ip tz d f) hd0 hf0
      have hge := emitDay_sums_ge idx s (d.totals f) (flowFracs ip tz d f) hd0 hf0
      have hgl := emitDay_getLast? idx s (d.totals f) (flowFracs ip tz d f)
      set E := emitDay idx s (d.totals f) (flowFracs ip tz d f) with hE
      constructor
      · refine List.Chain'.append hch ihc ?_
        intro x hx y hy
        rw [hgl, Option.mem_some_iff] at hx
        have hxs : x.sum = s + d.totals f := by
          rw [← hx]
          show s + cumThrough (d.totals f) (flowFracs ip tz d f) 23 = s + d.totals f
          rw [cumThrough_day]
        have hys : s + d.totals f ≤ y.sum :=
          ihge y (List.mem_of_mem_head? hy)
        rw [hxs]
        exact hys
      · intro r hr
        rcases List.mem_append.mp hr with h1 | h2
        · exact hge r h1
        · have := ihge r h2
          linarith

theorem head?_append_of_head? {α : Type} (l1 l2 : List α) (a : α)
    (h : l1.head? = some a) : (l1 ++ l2).head? = some a := by
  cases l1 with
  | nil => simp at h
  | cons x t => simpa using h

/-- The first record emitted for a flow belongs to the first successfully
fetched day: its `state` is that day's hour-0 contribution and its `sum`
is the starting running sum plus that contribution. -/
theorem flowRecords_head? (ip : Bool) (tz : ℤ) (f : FlowKey)
    (days : List (Option DayData)) (idx : ℕ) (s : ℚ) (d1 : DayData)
    (rest : List DayData) (hfm : days.filterMap id = d1 :: rest) :
    ∃ i, (flowRecords ip tz f days idx s).head? =
      some ⟨24 * i, hourState (d1.totals f) (flowFracs ip tz d1 f) 0,
            s + hourState (d1.totals f) (flowFracs ip tz d1 f) 0⟩ := by
  induction days generalizing idx with
  | nil => simp at hfm
  | cons day t ih =>
    cases day with
    | none =>
      rw [flowRecords]
      exact ih (idx + 1) (by simpa using hfm)
    | some d =>
      have hd1 : d = d1 := by
        have := hfm
        simp only [List.filterMap_cons, id] at this
        exact (List.cons.injEq _ _ _ _ ▸ this).1
      subst hd1
      rw [flowRecords]
      exact ⟨idx, head?_append_of_head? _ _ _ (by
        rw [emitDay_head?])⟩

theorem normFracs_nonneg_mem (l : List ℚ) (hl : ∀ x ∈ l, 0 ≤ x) :
    ∀ x ∈ normFracs l, 0 ≤ x := by
  intro x hx
  rw [normFracs] at hx
  by_cases h : 0 < l.sum
  · rw [if_pos h] at hx
    obtain ⟨v, hv, rfl⟩ := List.mem_map.mp hx
    exact div_nonneg (hl v hv) (le_of_lt h)
  · rw [if_neg h, uniform24] at hx
    rw [List.eq_of_mem_replicate hx]
    norm_num

theorem fracAt_nonneg_of_mem (l : List ℚ) (hl : ∀ x ∈ l, 0 ≤ x) (h' : ℕ) :
    0 ≤ fracAt (some l) h' := by
  cases l with
  | nil => norm_num [fracAt]
  | cons a t =>
    rw [fracAt_some_of_ne_nil _ (by simp)]
    by_cases hlen : h' < (a :: t).length
    · rw [List.getD_eq_getElem _ _ hlen]
      exact hl _ (List.getElem_mem _)
    · rw [List.getD_eq_default _ _ (Nat.le_of_not_lt hlen)]

/-- The four sign-clamped flows (battery charge/discharge, grid
import/export) always receive non-negative fractions, whatever the minute
data. -/
theorem clamped_fracAt_nonneg (ip : Bool) (tz : ℤ) (d : DayData) (f : FlowKey)
    (hcl : f = .batCharge ∨ f = .batDisCharge ∨ f = .gridImport ∨ f = .gridExport)
    (h' : ℕ) : 0 ≤ fracAt (flowFracs ip tz d f) h' := by
  rw [flowFracs, dayFracs]
  by_cases hmd : (if ip then d.minute else []).isEmpty
  · rw [if_pos hmd]
    norm_num [fracAt]
  · rw [if_neg hmd]
    simp only [Option.map_some']
    refine fracAt_nonneg_of_mem _ ?_ h'
    have hmax : ∀ (ml : List ℚ) (g : ℚ → ℚ), (∀ v, 0 ≤ g v) →
        ∀ x ∈ ml.map g, 0 ≤ x := by
      intro ml g hg x hx
      obtain ⟨v, _, rfl⟩ := List.mem_map.mp hx
      exact hg v
    rcases hcl with rfl | rfl | rfl | rfl <;>
      exact normFracs_nonneg_mem _ (hmax _ _ (fun v => le_max_right _ _))

theorem range24 :
    List.range 24 =
      [0, 1, 2, 3, 4, 5, 6, 7, 8, 9, 10, 11, 12, 13, 14, 15, 16, 17, 18, 19,
       20, 21, 22, 23] := by
  decide

theorem fracAt_none (h : ℕ) : fracAt none h = 1 / 24 := rfl

theorem cumThrough_none (d : ℚ) (h : ℕ) :
    cumThrough d none h = (h + 1) * (d * (1 / 24)) := by
  induction h with
  | zero =>
    rw [cumThrough_zero]
    show d * (1 / 24) = (0 + 1) * (d * (1 / 24))
    ring
  | succ n ih =>
    rw [cumThrough_succ, ih]
    show (↑n + 1) * (d * (1 / 24)) + d * (1 / 24) =
      (↑(n + 1) + 1) * (d * (1 / 24))
    push_cast
    ring

theorem flowFracs_empty (ip : Bool) (tz : ℤ) (tot : FlowKey → ℚ) (f : FlowKey) :
    flowFracs ip tz ⟨tot, []⟩ f = none := by
  rw [flowFracs, dayFracs]
  cases ip <;> simp

theorem emitDay_uniform (idx : ℕ) (s d : ℚ) :
    emitDay idx s d none =
      (List.range 24).map (fun h =>
        ⟨24 * idx + h, d * (1 / 24), s + (h + 1) * (d * (1 / 24))⟩) := by
  rw [emitDay_eq]
  refine List.map_congr_left ?_
  intro h _
  rw [show cumThrough d none h = (h + 1) * (d * (1 / 24)) from cumThrough_none d h]
  rfl

/-- C3: with minute samples, each of the six fraction vectors has 24
entries summing to exactly 1 (hence within 1e-9 of 1.0); with no samples
(empty list or failed minute fetch) every flow's fraction used for shaping
is exactly 1/24 per hour and the day's 24 energy records are still
emitted. -/
theorem c3_fraction_normalisation :
    (∀ (tz : ℤ) (md : List MinutePoint) (f : FlowKey),
      (computeHourlyFractions tz md f).length = 24 ∧
      (computeHourlyFractions tz md f).sum = 1 ∧
      |(computeHourlyFractions tz md f).sum - 1| ≤ 1 / 10 ^ 9) ∧
    (∀ h, fracAt none h = 1 / 24) ∧
    (∀ (ip : Bool) (tz : ℤ) (idx : ℕ) (st : EngineState) (tot : FlowKey → ℚ)
      (f : FlowKey),
      (processDay ip tz idx (some ⟨tot, []⟩) st).stats f =
        st.stats f ++ (List.range 24).map (fun h =>
          ⟨24 * idx + h, tot f * (1 / 24),
           st.runningSums f + (h + 1) * (tot f * (1 / 24))⟩) ∧
      ((processDay ip tz idx (some ⟨tot, []⟩) st).stats f).length =
        (st.stats f).length + 24) := by
  refine ⟨?_, fun h => rfl, ?_⟩
  · intro tz md f
    refine ⟨computeHourlyFractions_length tz md f, computeHourlyFractions_sum tz md f, ?_⟩
    rw [computeHourlyFractions_sum tz md f]
    norm_num
  · intro ip tz idx st tot f
    have hst : (processDay ip tz idx (some ⟨tot, []⟩) st).stats f =
        st.stats f ++ emitDay idx (st.runningSums f) (tot f)
          (flowFracs ip tz ⟨tot, []⟩ f) := rfl
    rw [hst, flowFracs_empty, emitDay_uniform]
    constructor
    · rfl
    · rw [List.length_append, List.length_map, List.length_range]

set_option maxHeartbeats 1000000 in
theorem c6md_means : hourMeans 0 c6md .batP =
    [100, -50, 0, 30, 0, 0, 0, 0, 0, 0, 0, 0, 0, 0, 0, 0, 0, 0, 0, 0,
     0, 0, 0, 0] := by
  norm_num [hourMeans, hourBucket, c6md, MinutePoint.tsOk, MinutePoint.ts,
    MinutePoint.fieldVal, localHour, range24, List.filter_cons,
    List.filterMap_cons]
  simp

/-- C6: the battery_charge fraction numerators are `max(battery_power, 0)`
per hour and the battery_discharge numerators are `max(-battery_power, 0)`,
each series independently normalised; for hourly means `[+100, -50, 0, +30]`
the numerators are `[100, 0, 0, 30]` and `[0, 50, 0, 0]`, normalising to
`[10/13, 0, 0, 3/13, …]` and `[0, 1, 0, 0, …]`. -/
theorem c6_sign_split :
    (∀ (tz : ℤ) (md : List MinutePoint),
      computeHourlyFractions tz md .batCharge =
        normFracs ((hourMeans tz md .batP).map (fun v => max v 0)) ∧
      computeHourlyFractions tz md .batDisCharge =
        normFracs ((hourMeans tz md .batP).map (fun v => max (-v) 0))) ∧
    (hourMeans 0 c6md .batP).take 4 = [100, -50, 0, 30] ∧
    ((hourMeans 0 c6md .batP).map (fun v => max v 0)).take 4 =
      [100, 0, 0, 30] ∧
    ((hourMeans 0 c6md .batP).map (fun v => max (-v) 0)).take 4 =
      [0, 50, 0, 0] ∧
    computeHourlyFractions 0 c6md .batCharge =
      [10 / 13, 0, 0, 3 / 13, 0, 0, 0, 0, 0, 0, 0, 0, 0, 0, 0, 0, 0, 0, 0, 0,
       0, 0, 0, 0] ∧
    computeHourlyFractions 0 c6md .batDisCharge =
      [0, 1, 0, 0, 0, 0, 0, 0, 0, 0, 0, 0, 0, 0, 0, 0, 0, 0, 0, 0,
       0, 0, 0, 0] := by
  refine ⟨fun tz md => ⟨rfl, rfl⟩, ?_, ?_, ?_, ?_, ?_⟩
  · rw [c6md_means]
    norm_num
  · rw [c6md_means]
    norm_num [max_def]
  · rw [c6md_means]
    norm_num [max_def]
  · show normFracs ((hourMeans 0 c6md .batP).map (fun v => max v 0)) = _
    rw [c6md_means]
    norm_num [max_def, normFracs]
  · show normFracs ((hourMeans 0 c6md .batP).map (fun v => max (-v) 0)) = _
    rw [c6md_means]
    norm_num [max_def, normFracs]

set_option maxHeartbeats 1000000 in
theorem c10md_means : hourMeans 0 c10md .loadEpsPwr =
    [100, -60, 0, 0, 0, 0, 0, 0, 0, 0, 0, 0, 0, 0, 0, 0, 0, 0, 0, 0,
     0, 0, 0, 0] := by
  norm_num [hourMeans, hourBucket, c10md, MinutePoint.tsOk, MinutePoint.ts,
    MinutePoint.fieldVal, localHour, range24, List.filter_cons,
    List.filterMap_cons]
  simp

theorem c10_loadfr : computeHourlyFractions 0 c10md .load =
    [5 / 2, -3 / 2, 0, 0, 0, 0, 0, 0, 0, 0, 0, 0, 0, 0, 0, 0, 0, 0, 0, 0,
     0, 0, 0, 0] := by
  show normFracs (hourMeans 0 c10md .loadEpsPwr) = _
  rw [c10md_means]
  norm_num [normFracs]

theorem c10_ff : flowFracs true 0 c10day .load =
    some [5 / 2, -3 / 2, 0, 0, 0, 0, 0, 0, 0, 0, 0, 0, 0, 0, 0, 0, 0, 0, 0, 0,
          0, 0, 0, 0] := by
  rw [flowFracs, dayFracs]
  simp [show c10md.isEmpty = false from rfl, c10_loadfr]
  exact ⟨computeHourlyFractions 0 c10day.minute, ⟨by simp [c10day, c10md], rfl⟩,
    c10_loadfr⟩

theorem c10run_get0 :
    ((runDays true 0 [some c10day] 0 (initState (fun _ => 0))).stats
        .load)[0]? = some ⟨0, 25, 25⟩ := by
  rw [runDays_stats]
  simp only [initState, flowRecords, List.nil_append, List.append_nil]
  rw [emitDay_eq, List.getElem?_map]
  simp only [List.getElem?_range (by norm_num : (0 : ℕ) < 24),
    Option.map_some']
  rw [show c10day.totals .load = 10 from rfl, c10_ff, cumThrough_zero]
  rw [show hourState 10
      (some [5 / 2, -3 / 2, 0, 0, 0, 0, 0, 0, 0, 0, 0, 0, 0, 0, 0, 0, 0, 0,
             0, 0, 0, 0, 0, 0]) 0 = 25 by
    show (10 : ℚ) * (5 / 2) = 25
    norm_num]
  norm_num

theorem c10run_get1 :
    ((runDays true 0 [some c10day] 0 (initState (fun _ => 0))).stats
        .load)[1]? = some ⟨1, -15, 10⟩ := by
  rw [runDays_stats]
  simp only [initState, flowRecords, List.nil_append, List.append_nil]
  rw [emitDay_eq, List.getElem?_map]
  simp only [List.getElem?_range (by norm_num : (1 : ℕ) < 24),
    Option.map_some']
  rw [show c10day.totals .load = 10 from rfl, c10_ff, cumThrough_succ,
    cumThrough_zero]
  rw [show hourState 10
      (some [5 / 2, -3 / 2, 0, 0, 0, 0, 0, 0, 0, 0, 0, 0, 0, 0, 0, 0, 0, 0,
             0, 0, 0, 0, 0, 0]) 0 = 25 by
    show (10 : ℚ) * (5 / 2) = 25
    norm_num]
  rw [show hourState 10
      (some [5 / 2, -3 / 2, 0, 0, 0, 0, 0, 0, 0, 0, 0, 0, 0, 0, 0, 0, 0, 0,
             0, 0, 0, 0, 0, 0]) 1 = -15 by
    show (10 : ℚ) * (-3 / 2) = -15
    norm_num]
  norm_num

/-- C10: the load fraction series is not clamped before normalisation.
With minute data whose hour-1 load mean is negative while the series total
is positive, the estimator returns a negative fraction at hour 1, and with
a positive daily total the backfill emits an hour-1 record whose `state` is
negative and whose `sum` is strictly below the preceding record's `sum`. -/
theorem c10_negative_fraction :
    (computeHourlyFractions 0 c10md .load)[1]? = some ((-3 : ℚ) / 2) ∧
    ((-3 : ℚ) / 2) < 0 ∧
    ((runDays true 0 [some c10day] 0 (initState (fun _ => 0))).stats
        .load)[0]? = some ⟨0, 25, 25⟩ ∧
    ((runDays true 0 [some c10day] 0 (initState (fun _ => 0))).stats
        .load)[1]? = some ⟨1, -15, 10⟩ ∧
    ((-15 : ℚ) < 0 ∧ (10 : ℚ) < 25) := by
  refine ⟨?_, by norm_num, c10run_get0, c10run_get1, by norm_num, by norm_num⟩
  rw [c10_loadfr]
  rfl

/-- C2 counterexample: on the negative-load-fraction input the emitted
sums for the load flow are not non-decreasing (hour 0 has sum 25, hour 1
has sum 10), refuting the unconditional monotonicity claim. -/
theorem c2_counterexample :
    ¬ List.Chain' (fun a b : StatRecord => a.sum ≤ b.sum)
      ((runDays true 0 [some c10day] 0 (initState (fun _ => 0))).stats
        .load) := by
  intro hch
  set l := (runDays true 0 [some c10day] 0 (initState (fun _ => 0))).stats
    .load with hl
  have hlen : l.length = 24 := by
    rw [hl, runDays_stats]
    simp only [initState, List.nil_append]
    rw [flowRecords_length]
    simp [countImported]
  have h01 := (List.chain'_iff_get.mp hch) 0 (by rw [hlen]; norm_num)
  have hg0 := c10run_get0
  have hg1 := c10run_get1
  rw [← hl] at hg0 hg1
  have hlt0 : 0 < l.length := by omega
  have hlt1 : 1 < l.length := by omega
  rw [List.getElem?_eq_getElem hlt0, Option.some_inj] at hg0
  rw [List.getElem?_eq_getElem hlt1, Option.some_inj] at hg1
  rw [List.get_eq_getElem, List.get_eq_getElem] at h01
  simp only [show (0 + 1 : ℕ) = 1 from rfl] at h01
  rw [hg0, hg1] at h01
  norm_num at h01

/-- C2 (amended): provided every imported day's daily value for the flow
is non-negative and every fraction the flow uses is non-negative (which
always holds for the four sign-clamped flows, and for any flow when the
uniform fallback is used, but can fail for solar/load — see the
counterexample), the emitted sums are non-decreasing in time order; and
unconditionally, the first emitted record's `sum` is the seeded running
sum plus the first imported day's hour-0 contribution
`daily_value * fraction[0]`. -/
theorem c2_amended_monotonicity (ip : Bool) (tz : ℤ) (f : FlowKey)
    (seed : FlowKey → ℚ) (days : List (Option DayData)) :
    ((∀ d ∈ days.filterMap id, 0 ≤ d.totals f) →
      (∀ d ∈ days.filterMap id, ∀ h',
        0 ≤ fracAt (flowFracs ip tz d f) h') →
      List.Chain' (fun a b : StatRecord => a.sum ≤ b.sum)
        ((runDays ip tz days 0 (initState seed)).stats f)) ∧
    (∀ (d1 : DayData) (rest : List DayData), days.filterMap id = d1 :: rest →
      ∃ i, ((runDays ip tz days 0 (initState seed)).stats f).head? =
        some ⟨24 * i, d1.totals f * fracAt (flowFracs ip tz d1 f) 0,
          seed f + d1.totals f * fracAt (flowFracs ip tz d1 f) 0⟩) ∧
    (∀ (f' : FlowKey),
      f' = .batCharge ∨ f' = .batDisCharge ∨ f' = .gridImport ∨
        f' = .gridExport →
      ∀ (d : DayData) (h' : ℕ), 0 ≤ fracAt (flowFracs ip tz d f') h') := by
  refine ⟨?_, ?_, fun f' hcl d h' => clamped_fracAt_nonneg ip tz d f' hcl h'⟩
  · intro hd hf
    rw [runDays_stats]
    simp only [initState, List.nil_append]
    exact (flowRecords_chain ip tz f days 0 (seed f) hd hf).1
  · intro d1 rest hfm
    rw [runDays_stats]
    simp only [initState, List.nil_append]
    obtain ⟨i, hi⟩ := flowRecords_head? ip tz f days 0 (seed f) d1 rest hfm
    exact ⟨i, hi⟩

/-- C2 witness: the amended monotonicity theorem applied to a concrete
three-day range (the middle day failing) with uniform fractions, seed 3
and daily totals 1; and its unconditional first-sum conjunct applied to
the one-day negative-fraction input. -/
theorem c2_amended_witness :
    List.Chain' (fun a b : StatRecord => a.sum ≤ b.sum)
      ((runDays false 0 [some oneDay, none, some oneDay] 0
        (initState (fun _ => 3))).stats .pv) ∧
    (∃ i, ((runDays true 0 [some c10day] 0
        (initState (fun _ => 0))).stats .load).head? =
      some ⟨24 * i,
        c10day.totals .load * fracAt (flowFracs true 0 c10day .load) 0,
        0 + c10day.totals .load * fracAt (flowFracs true 0 c10day .load) 0⟩) :=
  ⟨(c2_amended_monotonicity false 0 .pv (fun _ => 3)
      [some oneDay, none, some oneDay]).1
    (by
      intro d hd
      have hde : d = oneDay := by
        simp [List.filterMap_cons] at hd
        exact hd
      subst hde
      norm_num [oneDay])
    (by
      intro d hd h'
      have hde : d = oneDay := by
        simp [List.filterMap_cons] at hd
        exact hd
      subst hde
      have hone : flowFracs false 0 oneDay .pv = none := flowFracs_empty _ _ _ _
      rw [hone]
      norm_num [fracAt_none]),
   (c2_amended_monotonicity true 0 .load (fun _ => 0) [some c10day]).2.1
    c10day [] rfl⟩

theorem runDays_init_importedDays (ip : Bool) (tz : ℤ)
    (days : List (Option DayData)) (seed : FlowKey → ℚ) :
    (runDays ip tz days 0 (initState seed)).importedDays =
      countImported days := by
  rw [runDays_importedDays]
  simp [initState]

theorem runDays_init_stats_length (ip : Bool) (tz : ℤ)
    (days : List (Option DayData)) (seed : FlowKey → ℚ) (f : FlowKey) :
    ((runDays ip tz days 0 (initState seed)).stats f).length =
      24 * countImported days := by
  rw [runDays_stats]
  simp only [initState, List.nil_append]
  exact flowRecords_length ip tz f days 0 (seed f)

/-- With zero imported days the invocation returns early: no writes, no
notice. -/
theorem runInvocation_zero (resolved : FlowKey → Option ℕ)
    (q : Option (FlowKey → Option ℚ)) (ip : Bool) (tz : ℤ)
    (days : List (Option DayData)) (h : countImported days = 0) :
    runInvocation resolved q ip tz days = ⟨[], 0, none⟩ := by
  rw [runInvocation]
  rw [runDays_init_importedDays, h]
  simp

/-- With at least one imported day the invocation writes every resolved
non-empty series and produces the completion notice carrying the
imported-day count. -/
theorem runInvocation_pos (resolved : FlowKey → Option ℕ)
    (q : Option (FlowKey → Option ℚ)) (ip : Bool) (tz : ℤ)
    (days : List (Option DayData)) (h : countImported days ≠ 0) :
    runInvocation resolved q ip tz days =
      ⟨energyWrites resolved
        (runDays ip tz days 0
          (initState (seedSums (fun f => (resolved f).isSome) q))),
       countImported days, some (countImported days)⟩ := by
  rw [runInvocation]
  rw [runDays_init_importedDays]
  rw [if_neg h]

theorem stats_isEmpty_false (ip : Bool) (tz : ℤ)
    (days : List (Option DayData)) (seed : FlowKey → ℚ) (f : FlowKey)
    (h : countImported days ≠ 0) :
    ((runDays ip tz days 0 (initState seed)).stats f).isEmpty = false := by
  have hl := runDays_init_stats_length ip tz days seed f
  cases hst : (runDays ip tz days 0 (initState seed)).stats f with
  | nil =>
    rw [hst] at hl
    simp at hl
    omega
  | cons a t => rfl

/-- When every flow's accumulated records are non-empty and every entity
resolves, the sink loop writes every flow's series, in `_FLOW_TO_SENSOR`
order. -/
theorem energyWrites_all (st : EngineState)
    (hne : ∀ f, (st.stats f).isEmpty = false) :
    energyWrites allResolved st =
      allFlows.map (fun f => (flowIdx f, st.stats f)) := by
  simp [energyWrites, allFlows, allResolved, hne]

/-- C4: a per-day daily-totals fetch failure skips only that day — the
imported-day count equals the number of successful fetches and every flow
gets exactly 24 records per successful day; concretely, for a 3-day range
whose middle day fails, the invocation imports 2 days, notifies 2, and
sinks 6 series of 48 records each. -/
theorem c4_per_day_failure_skips_only_that_day :
    (∀ (ip : Bool) (tz : ℤ) (days : List (Option DayData))
      (seed : FlowKey → ℚ),
      (runDays ip tz days 0 (initState seed)).importedDays =
        countImported days ∧
      ∀ f, ((runDays ip tz days 0 (initState seed)).stats f).length =
        24 * countImported days) ∧
    (runInvocation allResolved (some fun _ => none) false 0
      [some oneDay, none, some oneDay]).importedDays = 2 ∧
    (runInvocation allResolved (some fun _ => none) false 0
      [some oneDay, none, some oneDay]).notice = some 2 ∧
    (runInvocation allResolved (some fun _ => none) false 0
      [some oneDay, none, some oneDay]).energyWrites.length = 6 ∧
    ((runInvocation allResolved (some fun _ => none) false 0
      [some oneDay, none, some oneDay]).energyWrites.map
        (fun w => w.2.length)) = [48, 48, 48, 48, 48, 48] := by
  have hcount : countImported [some oneDay, none, some oneDay] = 2 := by
    simp [countImported]
  have hpos := runInvocation_pos allResolved (some fun _ => none) false 0
    [some oneDay, none, some oneDay] (by rw [hcount]; omega)
  have hlen := fun f => runDays_init_stats_length false 0
    [some oneDay, none, some oneDay]
    (seedSums (fun f => (allResolved f).isSome) (some fun _ => none)) f
  have hne := fun f => stats_isEmpty_false false 0
    [some oneDay, none, some oneDay]
    (seedSums (fun f => (allResolved f).isSome) (some fun _ => none)) f
    (by rw [hcount]; omega)
  refine ⟨?_, ?_, ?_, ?_, ?_⟩
  · intro ip tz days seed
    exact ⟨runDays_init_importedDays ip tz days seed,
      fun f => runDays_init_stats_length ip tz days seed f⟩
  · rw [hpos, hcount]
  · rw [hpos, hcount]
  · rw [hpos]
    show (energyWrites allResolved _).length = 6
    rw [energyWrites_all _ hne]
    simp [allFlows]
  · rw [hpos]
    show ((energyWrites allResolved _).map (fun w => w.2.length)) = _
    rw [energyWrites_all _ hne]
    rw [show countImported [some oneDay, none, some oneDay] = 2 from hcount]
      at hlen
    simp [allFlows, hlen]

/-- C5: a two-day backfill with `include_power = false`, a daily solar
total of 24.0 each day and no minute samples emits exactly 48 solar
records, each with `state = 1.0`, whose sums run `1, 2, …, 48` on top of
the seeded offset, at consecutive hour starts. -/
theorem c5_end_to_end (s : ℚ) :
    ((runDays false 0 [some c5day, some c5day] 0
        (initState (fun _ => s))).stats .pv).length = 48 ∧
    (runDays false 0 [some c5day, some c5day] 0
        (initState (fun _ => s))).stats .pv =
      (List.range 48).map
        (fun k => ⟨k, 1, s + ((k : ℚ) + 1)⟩) := by
  have hff : flowFracs false 0 c5day .pv = none :=
    flowFracs_empty false 0 c5day.totals .pv
  have htot : c5day.totals .pv = 24 := rfl
  have hstats : (runDays false 0 [some c5day, some c5day] 0
      (initState (fun _ => s))).stats .pv =
      emitDay 0 s 24 none ++ emitDay 1 (s + 24) 24 none := by
    rw [runDays_stats]
    simp only [initState, List.nil_append, flowRecords, List.append_nil]
    rw [hff, htot]
  have hone : ∀ (i : ℕ) (t : ℚ), emitDay i t 24 none =
      (List.range 24).map (fun h => ⟨24 * i + h, 1, t + ((h : ℚ) + 1)⟩) := by
    intro i t
    rw [emitDay_uniform]
    refine List.map_congr_left ?_
    intro h _
    show (⟨24 * i + h, 24 * (1 / 24 : ℚ),
      t + ((h : ℚ) + 1) * (24 * (1 / 24 : ℚ))⟩ : StatRecord) = _
    rw [show (24 : ℚ) * (1 / 24) = 1 by norm_num, mul_one]
  constructor
  · rw [hstats, List.length_append, emitDay_length, emitDay_length]
  · rw [hstats, hone 0 s, hone 1 (s + 24),
      show (48 : ℕ) = 24 + 24 from rfl, List.range_add, List.map_append,
      List.map_map]
    refine congrArg₂ (· ++ ·) ?_ ?_
    · refine List.map_congr_left ?_
      intro h _
      show (⟨24 * 0 + h, 1, s + ((h : ℚ) + 1)⟩ : StatRecord) =
        ⟨h, 1, s + ((h : ℚ) + 1)⟩
      rw [show 24 * 0 + h = h by omega]
    · refine List.map_congr_left ?_
      intro h _
      show (⟨24 * 1 + h, 1, (s + 24) + ((h : ℚ) + 1)⟩ : StatRecord) =
        ⟨24 + h, 1, s + (((24 + h : ℕ) : ℚ) + 1)⟩
      rw [show 24 * 1 + h = 24 + h by omega,
        show (s + 24) + ((h : ℚ) + 1) = s + (((24 + h : ℕ) : ℚ) + 1) by
          push_cast
          ring]

/-- C7: the lookback window is the 7 days before the range start; on a
successful query each resolved flow whose last prior `sum` exists is seeded
with that value and every other flow starts at 0; a failed query
(`q = none`) leaves every running sum at 0 and the invocation proceeds
identically to a zero-seeded run (seeding happens once, before the date
loop, in `runInvocation`). -/
theorem c7_seeding :
    (∀ startDay : ℤ, seedWindow startDay = (startDay - 7, startDay)) ∧
    (∀ (resolved : FlowKey → Bool) (f : FlowKey),
      seedSums resolved none f = 0) ∧
    (∀ (resolved : FlowKey → Bool) (m : FlowKey → Option ℚ) (f : FlowKey)
      (v : ℚ), resolved f = true → m f = some v →
      seedSums resolved (some m) f = v) ∧
    (∀ (resolved : FlowKey → Bool) (m : FlowKey → Option ℚ) (f : FlowKey),
      resolved f = false ∨ m f = none →
      seedSums resolved (some m) f = 0) ∧
    (∀ (resolved : FlowKey → Option ℕ) (ip : Bool) (tz : ℤ)
      (days : List (Option DayData)),
      runInvocation resolved none ip tz days =
        runInvocation resolved (some fun _ => none) ip tz days) := by
  refine ⟨fun _ => rfl, fun _ _ => rfl, ?_, ?_, ?_⟩
  · intro resolved m f v hr hm
    simp [seedSums, hr, hm]
  · intro resolved m f h
    rcases h with hr | hm
    · simp [seedSums, hr]
    · simp [seedSums, hm]
  · intro resolved ip tz days
    have hseed : seedSums (fun f => (resolved f).isSome) none =
        seedSums (fun f => (resolved f).isSome) (some fun _ => none) := by
      funext f
      simp [seedSums]
    rw [runInvocation, runInvocation, hseed]

/-- C7 witness: a resolved flow with a recorded prior sum of 5 is seeded
with 5; after a failed query the seed is 0. -/
theorem c7_seeding_witness :
    seedSums (fun _ => true) (some fun _ => some 5) .pv = 5 ∧
    seedSums (fun _ => true) none .pv = 0 ∧
    runInvocation (fun _ => some 1) none false 0 [some oneDay] =
      runInvocation (fun _ => some 1) (some fun _ => none) false 0
        [some oneDay] :=
  ⟨c7_seeding.2.2.1 (fun _ => true) (fun _ => some 5) .pv 5 rfl rfl,
   c7_seeding.2.1 (fun _ => true) .pv,
   c7_seeding.2.2.2.2 (fun _ => some 1) false 0 [some oneDay]⟩

/-- C8: a power series routed to the kilowatt-scaled battery identifier is
sunk with every mean divided by 1000 and unit kW, every other series keeps
its means unscaled in W; a computed hourly mean of 2500 W becomes 2.5 on
the kW route and stays 2500 on any other route. -/
theorem c8_unit_conversion :
    (∀ recs : List PowerRecord,
      sinkPowerRecords true recs =
        ((sortByStart recs).map (fun r => ⟨r.start, r.mean / 1000⟩),
         .kilowatt) ∧
      sinkPowerRecords false recs = (sortByStart recs, .watt)) ∧
    isKwRoute true .batteryPower = true ∧
    isKwRoute false .batteryPower = false ∧
    isKwRoute true .gridPower = false ∧
    powerStatsFor 0 c8md .batP = [⟨0, 2500⟩] ∧
    sinkPowerRecords (isKwRoute true .batteryPower)
      (powerStatsFor 0 c8md .batP) = ([⟨0, 5 / 2⟩], .kilowatt) ∧
    sinkPowerRecords (isKwRoute true .gridPower)
      (powerStatsFor 0 c8md .batP) = ([⟨0, 2500⟩], .watt) := by
  have hps : powerStatsFor 0 c8md .batP = [⟨0, 2500⟩] := by
    norm_num [powerStatsFor, bucketKeys, bucketReadings, c8md,
      MinutePoint.tsOk, MinutePoint.ts, MinutePoint.fieldVal, hourStartIdx,
      List.filter_cons, List.filterMap_cons]
    simp
  refine ⟨fun recs => ⟨rfl, rfl⟩, rfl, rfl, rfl, hps, ?_, ?_⟩
  · rw [hps, show isKwRoute true PowerSensor.batteryPower = true from rfl]
    norm_num [sinkPowerRecords, sortByStart, insertByStart]
  · rw [hps]
    rfl

/-- C9 counterexample: an invocation that imports one day but resolves no
energy identifier performs no sink write at all, yet the claim requires
every invocation with at least one imported day to write to the sink. -/
theorem c9_counterexample :
    (runInvocation (fun _ => none) (some fun _ => none) false 0
      [some oneDay]).importedDays = 1 ∧
    (runInvocation (fun _ => none) (some fun _ => none) false 0
      [some oneDay]).energyWrites = [] ∧
    (runInvocation (fun _ => none) (some fun _ => none) false 0
      [some oneDay]).notice = some 1 := by
  have hpos := runInvocation_pos (fun _ => none) (some fun _ => none) false 0
    [some oneDay] (by simp [countImported])
  rw [hpos]
  refine ⟨by simp [countImported], ?_, by simp [countImported]⟩
  simp [energyWrites, allFlows]

/-- C9 (amended): zero imported days → no sink write and no completion
notice; at least one imported day → the completion notice reports the
imported-day count and the sink receives every flow whose identifier
resolved (hence at least one write whenever some energy identifier
resolves — but an invocation resolving no identifier writes nothing, see
the counterexample). -/
theorem c9_amended_failure_semantics (resolved : FlowKey → Option ℕ)
    (q : Option (FlowKey → Option ℚ)) (ip : Bool) (tz : ℤ)
    (days : List (Option DayData)) :
    ((runInvocation resolved q ip tz days).importedDays = 0 →
      (runInvocation resolved q ip tz days).energyWrites = [] ∧
      (runInvocation resolved q ip tz days).notice = none) ∧
    ((runInvocation resolved q ip tz days).importedDays ≠ 0 →
      (runInvocation resolved q ip tz days).notice =
        some (runInvocation resolved q ip tz days).importedDays ∧
      ∀ (f : FlowKey) (e : ℕ), resolved f = some e →
        (e, (runDays ip tz days 0
          (initState (seedSums (fun f' => (resolved f').isSome) q))).stats f)
          ∈ (runInvocation resolved q ip tz days).energyWrites) := by
  by_cases hc : countImported days = 0
  · rw [runInvocation_zero resolved q ip tz days hc]
    exact ⟨fun _ => ⟨rfl, rfl⟩, fun h => absurd rfl h⟩
  · rw [runInvocation_pos resolved q ip tz days hc]
    refine ⟨fun h => absurd h hc, fun _ => ⟨rfl, ?_⟩⟩
    intro f e he
    refine List.mem_filterMap.mpr ⟨f, ?_, ?_⟩
    · cases f <;> simp [allFlows]
    · rw [he]
      have hne := stats_isEmpty_false ip tz days
        (seedSums (fun f' => (resolved f').isSome) q) f hc
      simp [hne]

/-- C9 witness: the amended theorem applied to a one-failed-day range (no
writes, no notice) and to a one-good-day range with all identifiers
resolved (notice of 1, solar series written). -/
theorem c9_amended_witness :
    ((runInvocation allResolved none false 0 [none]).energyWrites = [] ∧
     (runInvocation allResolved none false 0 [none]).notice = none) ∧
    ((runInvocation allResolved none false 0 [some oneDay]).notice =
      some (runInvocation allResolved none false 0
        [some oneDay]).importedDays ∧
     (flowIdx .pv, (runDays false 0 [some oneDay] 0
       (initState (seedSums (fun f' => (allResolved f').isSome)
         none))).stats .pv)
       ∈ (runInvocation allResolved none false 0 [some oneDay]).energyWrites) := by
  constructor
  · exact (c9_amended_failure_semantics allResolved none false 0 [none]).1
      (by rw [runInvocation_zero allResolved none false 0 [none]
        (by simp [countImported])])
  · have h := (c9_amended_failure_semantics allResolved none false 0
      [some oneDay]).2
      (by rw [runInvocation_pos allResolved none false 0 [some oneDay]
        (by simp [countImported])]
          simp [countImported])
    exact ⟨h.1, h.2 .pv (flowIdx .pv) rfl⟩

set_option maxRecDepth 1000000 in
/-- C1: the code performs no last-hour correction, so under binary64
arithmetic the 24 accumulated hourly values do not sum to `daily_value`
exactly.  With `daily_value = 1.0` (exactly representable), no minute
samples (uniform fractions `fl(1.0/24.0)`) and `sum_before = 0`, the
`cum` the code adds into the hour-23 record is `1 - 2^-51`, not `1.0`:
the emitted states sum to `1 - 2^-51 ≠ daily_value` and the hour-23 `sum`
is `sum_before + (1 - 2^-51) ≠ sum_before + daily_value`.  (In the exact
arithmetic of the ℚ embedding the gap closes by itself:
`cumThrough 1 none 23 = 1`.) -/
theorem c1_no_last_hour_correction :
    Fl.flDaySum (Fl.fromNat 1) = ⟨9007199254740988, -53⟩ ∧
    Fl.toQ (Fl.flDaySum (Fl.fromNat 1)) = 1 - (1 / 2 ^ 51 : ℚ) ∧
    Fl.flDaySum (Fl.fromNat 1) ≠ Fl.fromNat 1 ∧
    Fl.toQ (Fl.flDaySum (Fl.fromNat 1)) ≠ Fl.toQ (Fl.fromNat 1) ∧
    cumThrough 1 none 23 = 1 := by
  have hval : Fl.flDaySum (Fl.fromNat 1) = ⟨9007199254740988, -53⟩ := by
    decide
  have hone : Fl.fromNat 1 = ⟨4503599627370496, -52⟩ := by decide
  have htq : Fl.toQ ⟨9007199254740988, -53⟩ = 1 - (1 / 2 ^ 51 : ℚ) := by
    norm_num [Fl.toQ]
    norm_num [show Int.toNat 53 = 53 from rfl]
  have htq1 : Fl.toQ ⟨4503599627370496, -52⟩ = 1 := by
    norm_num [Fl.toQ]
    norm_num [show Int.toNat 52 = 52 from rfl]
  refine ⟨hval, by rw [hval, htq], by decide, ?_, ?_⟩
  · rw [hval, hone, htq, htq1]
    norm_num
  · rw [cumThrough_none]
    norm_num

end Hanchu
